import Mathlib

/-!
Verification of the kaleidoscope.rs front-end (lexer, parser, IR-generation
orchestration) against its natural-language specification.

The Rust sources are shallowly embedded: the character iterator with one-char
lookahead becomes an explicit `LexerState`, the peekable token iterator becomes
a `List Token`, and the LLVM context/module/builder triple becomes an explicit
`IRGenState` record.  Rust `f64` values are modelled as exact rationals `ℚ`
(no rounding is observable in any verified property).  Fallible code returns
`Except`.  Loops and the lexer's tail-position comment retry are expressed
with an explicit fuel parameter so that every definition is executable by the
kernel; fuel exhaustion surfaces as a dedicated marker value that is never
reached when the fuel exceeds the number of unconsumed characters/tokens.
-/

deriving instance DecidableEq for Except

namespace Kaleidoscope

/-- Rust `char::is_ascii_whitespace`: space, horizontal tab, newline,
form feed, carriage return. -/
def isAsciiWhitespace (c : Char) : Bool :=
  c = ' ' || c = '\t' || c = '\n' || c = '\x0c' || c = '\r'

/-- Rust `char::is_ascii_alphabetic`. -/
def isAsciiAlphabetic (c : Char) : Bool :=
  ('a' ≤ c && c ≤ 'z') || ('A' ≤ c && c ≤ 'Z')

/-- Rust `char::is_ascii_digit`. -/
def isAsciiDigit (c : Char) : Bool :=
  '0' ≤ c && c ≤ '9'

/-- Rust `char::is_ascii_alphanumeric`. -/
def isAsciiAlphanumeric (c : Char) : Bool :=
  isAsciiAlphabetic c || isAsciiDigit c

/-- Operator — `src/src/parser.rs` and `src/src/ir.rs` use
`crate::lexer::Operator` with exactly these four variants (the declaration
itself is in the lexer module). -/
inductive Operator where
  | LessThan
  | Plus
  | Minus
  | Times
deriving DecidableEq, Repr

/-- Token (`src/src/lexer.rs`).  The structural punctuation and operator
variants are Modelled from the spec: `src/src/lexer.rs` predates
`src/src/parser.rs`, which matches on `Token::OpenParenthesis`,
`Token::CloseParenthesis`, `Token::Comma`, `Token::SemiColon` and
`Token::Operator(op)`; the spec's data model lists exactly these. -/
inductive Token where
  | EOF
  | Def
  | Extern
  | Identifier (s : String)
  | Number (v : ℚ)
  | OpenParenthesis
  | CloseParenthesis
  | Comma
  | SemiColon
  | Operator (op : Operator)
deriving DecidableEq, Repr

/-- LexerError (`src/src/lexer.rs`).  `InvalidNumber` drops the opaque
`ParseFloatError` payload.  `OutOfFuel` is an artifact of the fuel-based
embedding of the tail-position comment retry in `get_token`; it is never
produced when the fuel exceeds the number of unconsumed characters. -/
inductive LexerError where
  | InvalidNumber
  | UnknownInitial (c : Char)
  | OutOfFuel
deriving DecidableEq, Repr

/-- The `Lexer` struct: the one-character lookahead buffer `last_char` and
the not-yet-pulled suffix of the underlying character iterator. -/
structure LexerState where
  lastChar : Option Char
  rest : List Char
deriving DecidableEq, Repr

/-- `Lexer::new`: pull one character into the lookahead buffer. -/
def lexerNew (input : List Char) : LexerState :=
  ⟨input.head?, input.tail⟩

/-- `Lexer::skip_chars`: consume characters while the lookahead satisfies the
predicate (the loop is unrolled on the remaining-input list so that the
recursion is structural). -/
def skipChars (p : Char → Bool) : Option Char → List Char → LexerState
  | some c, r :: rs => if p c then skipChars p (some r) rs else ⟨some c, r :: rs⟩
  | some c, [] => if p c then ⟨none, []⟩ else ⟨some c, []⟩
  | none, rs => ⟨none, rs⟩

/-- `Lexer::get_chars`: starting from the string `acc` (the initial character
in the source), push the lookahead character while it satisfies the predicate. -/
def getChars (p : Char → Bool) (acc : String) : Option Char → List Char → String × LexerState
  | some c, r :: rs => if p c then getChars p (acc.push c) (some r) rs else (acc, ⟨some c, r :: rs⟩)
  | some c, [] => if p c then (acc.push c, ⟨none, []⟩) else (acc, ⟨some c, []⟩)
  | none, rs => (acc, ⟨none, rs⟩)

/-- Nat value of a digit string. -/
def digitsToNat (s : List Char) : Nat :=
  s.foldl (fun a c => a * 10 + (c.toNat - '0'.toNat)) 0

/-- Model of Rust `str::parse::<f64>` on the strings the lexer can feed it
(non-empty strings of ASCII digits and dots): at most one dot and at least one
digit, the value being the exact rational.  Anything else (two dots, a lone
dot) is a `ParseFloatError`, modelled as `none`. -/
def parseF64 (s : String) : Option ℚ :=
  match s.toList.splitOn '.' with
  | [ip] =>
      if ip.all isAsciiDigit && !ip.isEmpty then some (mkRat (digitsToNat ip) 1) else none
  | [ip, fp] =>
      if (ip ++ fp).all isAsciiDigit && !(ip ++ fp).isEmpty then
        some (mkRat (digitsToNat (ip ++ fp)) (10 ^ fp.length))
      else none
  | _ => none

/-- Modelled from the spec: the structural-punctuation / operator arm of
`Lexer::get_token` ("Any other single character matching a structural/operator
symbol: emit the corresponding fixed single-character token").  This arm is
missing from the stale `src/src/lexer.rs`, but `src/src/parser.rs` consumes
exactly these tokens. -/
def punctToken (c : Char) : Option Token :=
  if c = '(' then some .OpenParenthesis
  else if c = ')' then some .CloseParenthesis
  else if c = ',' then some .Comma
  else if c = ';' then some .SemiColon
  else if c = '<' then some (.Operator .LessThan)
  else if c = '+' then some (.Operator .Plus)
  else if c = '-' then some (.Operator .Minus)
  else if c = '*' then some (.Operator .Times)
  else none

/-- `Lexer::get_token`.  The whitespace skip, the identifier/keyword arm, the
number arm, the comment arm and the error arm follow `src/src/lexer.rs`
lines 48–86; the punctuation arm (`punctToken`) sits between the comment arm
and the error arm as the spec requires.  The tail-position retry after a line
comment is paid for with `fuel`. -/
def getToken (fuel : Nat) (s0 : LexerState) : (Except LexerError Token) × LexerState :=
  let s : LexerState :=
    match s0.lastChar with
    | some c => if isAsciiWhitespace c then skipChars isAsciiWhitespace s0.lastChar s0.rest else s0
    | none => s0
  match s.lastChar with
  | none => (.ok .EOF, s)
  | some c =>
    let s1 : LexerState := ⟨s.rest.head?, s.rest.tail⟩
    if isAsciiAlphabetic c then
      let (ident, s2) := getChars isAsciiAlphanumeric c.toString s1.lastChar s1.rest
      (.ok (if ident = "def" then .Def else if ident = "extern" then .Extern
            else .Identifier ident), s2)
    else if isAsciiDigit c || c = '.' then
      let (num, s2) := getChars (fun ch => isAsciiDigit ch || ch = '.') c.toString s1.lastChar s1.rest
      match parseF64 num with
      | some v => (.ok (.Number v), s2)
      | none => (.error .InvalidNumber, s2)
    else if c = '#' then
      let s2 := skipChars (fun ch => ch ≠ '\n' && ch ≠ '\r') s1.lastChar s1.rest
      if s2.lastChar.isSome then
        match fuel with
        | 0 => (.error .OutOfFuel, s2)
        | fuel' + 1 => getToken fuel' s2
      else (.ok .EOF, s2)
    else
      match punctToken c with
      | some t => (.ok t, s1)
      | none => (.error (.UnknownInitial c), s1)

/-- `impl Iterator for Lexer`: an `Ok(EOF)` terminates the iteration (`None`),
any other token or error is yielded. -/
def lexerNext (fuel : Nat) (s : LexerState) : Option (Except LexerError Token) × LexerState :=
  match getToken fuel s with
  | (.ok t, s') => if t = .EOF then (none, s') else (some (.ok t), s')
  | (.error e, s') => (some (.error e), s')

/-- `lexer.collect::<Result<Vec<_>, _>>()` (as in `src/src/main.rs`): drain the
iterator, stopping at the first error.  `none` means the outer fuel ran out
(never the case when it exceeds the input length). -/
def lexAllAux : Nat → Nat → LexerState → Option (Except LexerError (List Token))
  | 0, _, _ => none
  | fuel + 1, tokFuel, s =>
    match lexerNext tokFuel s with
    | (none, _) => some (.ok [])
    | (some (.error e), _) => some (.error e)
    | (some (.ok t), s') =>
      match lexAllAux fuel tokFuel s' with
      | some (.ok ts) => some (.ok (t :: ts))
      | r => r

/-- Tokenize a whole input line, as the driver does. -/
def lexAll (input : String) : Option (Except LexerError (List Token)) :=
  lexAllAux (input.length + 1) (input.length + 1) (lexerNew input.toList)

/-! ### Parser (`src/src/parser.rs`) -/

/-- Prototype: a function name and its ordered parameter-name list. -/
structure Prototype where
  name : String
  args : List String
deriving DecidableEq, Repr

/-- ExprAST (`src/src/parser.rs`).  `PrototypeE` embeds `ExprAST::Prototype`
(the constructor is renamed to avoid shadowing the `Prototype` structure). -/
inductive ExprAST where
  | Number (value : ℚ)
  | Variable (name : String)
  | BinaryOp (op : Operator) (lhs rhs : ExprAST)
  | Call (callee : String) (args : List ExprAST)
  | PrototypeE (proto : Prototype)
  | Function (proto : Prototype) (body : ExprAST)
deriving Repr

/-- ParserError is a static string in the source. -/
abbrev ParserError := String

/-- The two recoverable warnings `Parser::parse` prints to stderr:
unconsumed trailing tokens (with the drained remainder) and a missing
trailing semicolon. -/
inductive ParseWarning where
  | invalidSyntax (remainds : List Token)
  | expectedSemicolon
deriving DecidableEq, Repr

/-- `Parser::get_prec`: the static precedence table (`u8` in the source). -/
def getPrec (op : Operator) : Nat :=
  match op with
  | .LessThan => 10
  | .Plus => 20
  | .Minus => 20
  | .Times => 40

/-- The `while let Some(Token::Identifier(arg)) = peek` loop of
`Parser::parse_prototype`. -/
def parseProtoArgs : List Token → List String × List Token
  | .Identifier arg :: ts =>
    let (args, ts') := parseProtoArgs ts
    (arg :: args, ts')
  | ts => ([], ts)

/-- `Parser::parse_prototype`. -/
def parsePrototype (ts : List Token) : Except ParserError (Prototype × List Token) :=
  match ts.head? with
  | some (.Identifier name) =>
    let ts := ts.tail
    if ts.head? ≠ some .OpenParenthesis then .error "Expected '(' in prototype"
    else
      let (args, ts) := parseProtoArgs ts.tail
      if ts.head? ≠ some .CloseParenthesis then .error "Expected ')' in prototype"
      else .ok (⟨name, args⟩, ts.tail)
  | _ => .error "Expected function name in prototype"

mutual

/-- `Parser::parse_expression`.  Here and in the other mutually recursive
parsing functions, `fuel` pays for the recursion; the "out of fuel" error is
an artifact of the embedding, never returned when the fuel exceeds the number
of unconsumed tokens. -/
def parseExpression (fuel : Nat) (ts : List Token) : Except ParserError (ExprAST × List Token) :=
  match fuel with
  | 0 => .error "out of fuel"
  | fuel + 1 => do
    let (lhs, ts) ← parsePrimary fuel ts
    parseOpAndRhs fuel 0 lhs ts

/-- `Parser::parse_primary`. -/
def parsePrimary (fuel : Nat) (ts : List Token) : Except ParserError (ExprAST × List Token) :=
  match fuel with
  | 0 => .error "out of fuel"
  | fuel + 1 =>
    match ts.head? with
    | some (.Number value) => .ok (.Number value, ts.tail)
    | some (.Identifier name) =>
      let ts := ts.tail
      if ts.head? ≠ some .OpenParenthesis then .ok (.Variable name, ts)
      else
        let ts := ts.tail
        if ts.head? = some .CloseParenthesis then .ok (.Call name [], ts.tail)
        else do
          let (args, ts) ← parseCallArgs fuel [] ts
          .ok (.Call name args, ts.tail)
    | some .OpenParenthesis => parseParenthesis fuel ts.tail
    | _ => .error "Expected expression"

/-- The argument-list loop inside `Parser::parse_primary`: parse an expression,
then break on `)` (the caller consumes it), continue past a comma, or fail. -/
def parseCallArgs (fuel : Nat) (acc : List ExprAST) (ts : List Token) :
    Except ParserError (List ExprAST × List Token) :=
  match fuel with
  | 0 => .error "out of fuel"
  | fuel + 1 => do
    let (e, ts) ← parseExpression fuel ts
    match ts.head? with
    | some .CloseParenthesis => .ok (acc ++ [e], ts)
    | some .Comma => parseCallArgs fuel (acc ++ [e]) ts.tail
    | _ => .error "Expected ')' or ',' in argument list"

/-- `Parser::parse_parenthesis` (called after the `(` was consumed). -/
def parseParenthesis (fuel : Nat) (ts : List Token) : Except ParserError (ExprAST × List Token) :=
  match fuel with
  | 0 => .error "out of fuel"
  | fuel + 1 => do
    let (ast, ts) ← parseExpression fuel ts
    if ts.head? = some .CloseParenthesis then .ok (ast, ts.tail)
    else .error "Expected ')'"

/-- `Parser::parse_op_and_rhs`: precedence climbing.  The source's `loop` is
the tail-recursive call with the same `exprPrec`. -/
def parseOpAndRhs (fuel : Nat) (exprPrec : Nat) (lhs : ExprAST) (ts : List Token) :
    Except ParserError (ExprAST × List Token) :=
  match fuel with
  | 0 => .error "out of fuel"
  | fuel + 1 =>
    match ts.head? with
    | some (.Operator op) =>
      if getPrec op < exprPrec then .ok (lhs, ts)
      else do
        let (rhs, ts') ← parsePrimary fuel ts.tail
        let (rhs, ts'') ←
          match ts'.head? with
          | some (.Operator nextOp) =>
            if getPrec op < getPrec nextOp then parseOpAndRhs fuel (getPrec op + 1) rhs ts'
            else pure (rhs, ts')
          | _ => pure (rhs, ts')
        parseOpAndRhs fuel exprPrec (.BinaryOp op lhs rhs) ts''
    | _ => .ok (lhs, ts)

end

/-- `Parser::parse_defeinition` (sic). -/
def parseDefeinition (fuel : Nat) (ts : List Token) : Except ParserError (ExprAST × List Token) := do
  let (proto, ts) ← parsePrototype ts
  let (body, ts) ← parseExpression fuel ts
  .ok (.Function proto body, ts)

/-- The top-level dispatch of `Parser::parse` (before the semicolon check):
`def` → definition, `extern` → prototype, otherwise a bare expression,
no tokens → the "Unimplemented" error. -/
def parseStmt (fuel : Nat) (ts : List Token) : Except ParserError (ExprAST × List Token) :=
  match ts.head? with
  | some .Def => parseDefeinition fuel ts.tail
  | some .Extern => do
    let (proto, ts') ← parsePrototype ts.tail
    .ok (.PrototypeE proto, ts')
  | some _ => parseExpression fuel ts
  | none => .error "Unimplemented"

/-- `Parser::parse`: parse one statement, then check the terminator.  A
semicolon is consumed; any other trailing token means the whole remainder is
drained and reported as a warning; no token at all is the missing-semicolon
warning.  In every non-error case the already-built AST is returned. -/
def parse (fuel : Nat) (ts : List Token) :
    Except ParserError (ExprAST × Option ParseWarning × List Token) :=
  match parseStmt fuel ts with
  | .error e => .error e
  | .ok (ast, ts₁) =>
    match ts₁.head? with
    | some .SemiColon => .ok (ast, none, ts₁.tail)
    | some _ => .ok (ast, some (.invalidSyntax ts₁), [])
    | none => .ok (ast, some .expectedSemicolon, [])

/-! ### IR generation (`src/src/ir.rs`)

The LLVM context/module/builder triple is embedded as an explicit
`IRGenState`.  LLVM value references become the inductive `Value` (constants,
function parameters, instruction results, functions), functions become
`LLVMFunction` records carrying their identity (`id`, standing for the
`LLVMValueRef` pointer), name, arity, stored parameter names (set by
`LLVMSetValueName2`) and basic blocks, and the builder's insertion point
becomes an optional function-id/block-index pair. -/

/-- LLVMError (`src/src/ir.rs`). -/
inductive LLVMError where
  | VariableNotFound (name : String)
  | FunctionNotFound (name : String)
  | InvalidArgumentsSize (name : String) (given : Nat)
deriving DecidableEq, Repr

/-- A backend value reference. -/
inductive Value where
  | constReal (v : ℚ)
  | param (fid : Nat) (idx : Nat)
  | instr (id : Nat)
  | func (fid : Nat)
deriving DecidableEq, Repr

/-- One emitted instruction, carrying the fresh id of its result value.
`fcmp` is the ordered-less-than comparison and `uitofp` the bool-to-double
conversion that `LLVMBuilder::create_fcmp` emits as a pair. -/
inductive Instruction where
  | fadd (lhs rhs : Value) (res : Nat)
  | fsub (lhs rhs : Value) (res : Nat)
  | fmul (lhs rhs : Value) (res : Nat)
  | fcmp (lhs rhs : Value) (res : Nat)
  | uitofp (operand : Value) (res : Nat)
  | call (callee : Nat) (args : List Value) (res : Nat)
  | ret (v : Value) (res : Nat)
deriving DecidableEq, Repr

/-- A backend function: identity, name, declared arity, the names stored on
its parameters, and its basic blocks (each a list of instructions, appended
in creation order; every block is created with the label "entry"). -/
structure LLVMFunction where
  id : Nat
  name : String
  arity : Nat
  paramNames : List String
  blocks : List (List Instruction)
deriving DecidableEq, Repr

/-- The `IRGenerator` state: the module's functions in creation order, a
fresh-id counter (function and instruction-result identities), the builder's
insertion point (function id, block index) and `named_values`. -/
structure IRGenState where
  functions : List LLVMFunction
  nextId : Nat
  insertPoint : Option (Nat × Nat)
  namedValues : List (String × Value)
deriving DecidableEq, Repr

/-- `IRGenerator::new`. -/
def irGeneratorNew : IRGenState :=
  ⟨[], 0, none, []⟩

/-- `LLVMModule::get_function` / `LLVMGetNamedFunction`: first function with
the given name (LLVM keeps function names unique, so first = only). -/
def findByName (st : IRGenState) (name : String) : Option LLVMFunction :=
  st.functions.find? (fun f => f.name = name)

/-- `LLVMModule::get_function`, with the `FunctionNotFound` error of the
source. -/
def getFunction (st : IRGenState) (name : String) : Except LLVMError LLVMFunction :=
  match findByName st name with
  | some f => .ok f
  | none => .error (.FunctionNotFound name)

/-- Lookup a function by identity (a dereference of the `FunctionRef`). -/
def findById (st : IRGenState) (fid : Nat) : Option LLVMFunction :=
  st.functions.find? (fun f => f.id = fid)

/-- Overwrite the parameter names with the prototype's names pairwise, as the
`f.args().iter().zip(proto.args.iter())` loop with `LLVMSetValueName2` does. -/
def setParamNames : List String → List String → List String
  | _p :: ps, n :: ns => n :: setParamNames ps ns
  | ps, [] => ps
  | [], _ => []

/-- `IRGenerator::gen_proto`: declare a fresh function (`LLVMAddFunction`)
with one double parameter per prototype argument and name its parameters.
(`LLVMAddFunction` would uniquify a clashing name; the generator's
FunctionDef path only declares after a failed lookup, so no verified
property exercises a clash.) -/
def genProto (st : IRGenState) (proto : Prototype) : LLVMFunction × IRGenState :=
  let f : LLVMFunction :=
    ⟨st.nextId, proto.name, proto.args.length,
     setParamNames (List.replicate proto.args.length "") proto.args, []⟩
  (f, { st with functions := st.functions ++ [f], nextId := st.nextId + 1 })

/-- `LLVMContext::create_basic_block`: append a fresh "entry" block to the
function, returning the new block's index. -/
def createBasicBlock (st : IRGenState) (fid : Nat) : Nat × IRGenState :=
  ((findById st fid).elim 0 (fun f => f.blocks.length),
   { st with functions := st.functions.map fun g =>
       if g.id = fid then { g with blocks := g.blocks ++ [[]] } else g })

/-- Append an instruction to the block at the given index. -/
def appendAt : List (List Instruction) → Nat → Instruction → List (List Instruction)
  | [], _, _ => []
  | b :: bs, 0, i => (b ++ [i]) :: bs
  | b :: bs, n + 1, i => b :: appendAt bs n i

/-- Append a sequence of instructions to the block at the given index. -/
def appendAtList (blocks : List (List Instruction)) (bidx : Nat) (is : List Instruction) :
    List (List Instruction) :=
  is.foldl (fun bs i => appendAt bs bidx i) blocks

/-- Advance the fresh-id counter to `n` and append `is` to the block under the
insertion point (no-op on the module when the builder is unpositioned).  Every
state an `IRGenerator::gen` call reaches differs from its input state by one
such step per emitted instruction. -/
def applyInstrs (st : IRGenState) (n : Nat) (is : List Instruction) : IRGenState :=
  { st with
    nextId := n
    functions :=
      match st.insertPoint with
      | none => st.functions
      | some (fid, bidx) =>
        st.functions.map fun g =>
          if g.id = fid then { g with blocks := appendAtList g.blocks bidx is } else g }

/-- Emit one instruction at the insertion point (an `LLVMBuild*` call): the
result value gets the next fresh id. -/
def emit (st : IRGenState) (mk : Nat → Instruction) : Value × IRGenState :=
  (.instr st.nextId, applyInstrs st (st.nextId + 1) [mk st.nextId])

/-- `LLVMBuilder::create_fcmp`: an ordered-less-than comparison followed by a
`uitofp` of its result. -/
def createFCmp (st : IRGenState) (l r : Value) : Value × IRGenState :=
  let (cmp, st) := emit st (fun res => .fcmp l r res)
  emit st (fun res => .uitofp cmp res)

/-- `LLVMDeleteFunction` on the function with identity `fid`. -/
def deleteFunction (st : IRGenState) (fid : Nat) : IRGenState :=
  { st with functions := st.functions.filter (fun g => g.id ≠ fid) }

/-- `HashMap::insert` on the scope: replace the binding if the key is
present, append it otherwise. -/
def scopeInsert (sc : List (String × Value)) (k : String) (v : Value) : List (String × Value) :=
  match sc with
  | [] => [(k, v)]
  | (k', v') :: rest => if k' = k then (k, v) :: rest else (k', v') :: scopeInsert rest k v

/-- `HashMap::get` on the scope. -/
def scopeLookup (sc : List (String × Value)) (k : String) : Option Value :=
  match sc.find? (fun p => p.1 = k) with
  | some p => some p.2
  | none => none

/-- `f.args()` with each parameter's stored name: the pairs the FunctionDef
path inserts into the cleared `named_values`. -/
def paramsOf (f : LLVMFunction) : List (String × Value) :=
  (List.range f.arity).map (fun i => (f.paramNames.getD i "", Value.param f.id i))

/-- The `named_values.clear()` plus insertion loop at the start of a
FunctionDef body generation. -/
def bindParams (f : LLVMFunction) : List (String × Value) :=
  (paramsOf f).foldl (fun sc p => scopeInsert sc p.1 p.2) []

/-- The prologue of the FunctionDef arm of `IRGenerator::gen`: look up the
backend function by the prototype's name, reusing it if present and declaring
it via `gen_proto` otherwise; append a fresh entry block; position the builder
on it; clear and repopulate `named_values` from the function's parameters.
Returns the function, the new block's index, and the state the body is
generated in. -/
def genFunctionSetup (st : IRGenState) (proto : Prototype) : LLVMFunction × Nat × IRGenState :=
  let (f, st₁) :=
    match getFunction st proto.name with
    | .ok f => (f, st)
    | .error _ => genProto st proto
  let (bidx, st₂) := createBasicBlock st₁ f.id
  (f, bidx, { st₂ with insertPoint := some (f.id, bidx), namedValues := bindParams f })

mutual

/-- `IRGenerator::gen` (`src/src/ir.rs` lines 248–309).  Returns the result
and the mutated generator state; the state is threaded through error returns
exactly as `&mut self` persists in the source. -/
def gen (st : IRGenState) (ast : ExprAST) : Except LLVMError Value × IRGenState :=
  match ast with
  | .Number value => (.ok (.constReal value), st)
  | .Variable name =>
    match scopeLookup st.namedValues name with
    | some v => (.ok v, st)
    | none => (.error (.VariableNotFound name), st)
  | .BinaryOp op lhs rhs =>
    match gen st lhs with
    | (.error e, st₁) => (.error e, st₁)
    | (.ok l, st₁) =>
      match gen st₁ rhs with
      | (.error e, st₂) => (.error e, st₂)
      | (.ok r, st₂) =>
        match op with
        | .LessThan => let (v, st₃) := createFCmp st₂ l r; (.ok v, st₃)
        | .Plus => let (v, st₃) := emit st₂ (fun res => .fadd l r res); (.ok v, st₃)
        | .Minus => let (v, st₃) := emit st₂ (fun res => .fsub l r res); (.ok v, st₃)
        | .Times => let (v, st₃) := emit st₂ (fun res => .fmul l r res); (.ok v, st₃)
  | .Call callee args =>
    match getFunction st callee with
    | .error e => (.error e, st)
    | .ok f =>
      if f.arity ≠ args.length then (.error (.InvalidArgumentsSize callee args.length), st)
      else
        match genArgs st args with
        | (.error e, st₁) => (.error e, st₁)
        | (.ok vs, st₁) =>
          let (v, st₂) := emit st₁ (fun res => .call f.id vs res)
          (.ok v, st₂)
  | .PrototypeE proto =>
    let (f, st₁) := genProto st proto
    (.ok (.func f.id), st₁)
  | .Function proto body =>
    let (f, _bidx, st₃) := genFunctionSetup st proto
    match gen st₃ body with
    | (.ok bv, st₄) =>
      let (_, st₅) := emit st₄ (fun res => .ret bv res)
      (.ok (.func f.id), st₅)
    | (.error e, st₄) => (.error e, deleteFunction st₄ f.id)

/-- The left-to-right argument-generation loop of the Call arm. -/
def genArgs (st : IRGenState) (args : List ExprAST) : Except LLVMError (List Value) × IRGenState :=
  match args with
  | [] => (.ok [], st)
  | a :: rest =>
    match gen st a with
    | (.error e, st₁) => (.error e, st₁)
    | (.ok v, st₁) =>
      match genArgs st₁ rest with
      | (.error e, st₂) => (.error e, st₂)
      | (.ok vs, st₂) => (.ok (v :: vs), st₂)

end

mutual

/-- Pure-expression ASTs: exactly the shapes `parse_expression` can build
(no nested Prototype or FunctionDef nodes). -/
def ExprOnly : ExprAST → Bool
  | .Number _ => true
  | .Variable _ => true
  | .BinaryOp _ l r => ExprOnly l && ExprOnly r
  | .Call _ args => ExprOnlyList args
  | .PrototypeE _ => false
  | .Function _ _ => false

/-- `ExprOnly` on every element. -/
def ExprOnlyList : List ExprAST → Bool
  | [] => true
  | a :: rest => ExprOnly a && ExprOnlyList rest

end

/-- The identity-relevant shape of a backend function: everything except its
basic blocks. -/
def keyOf (g : LLVMFunction) : Nat × String × Nat × List String :=
  (g.id, g.name, g.arity, g.paramNames)

/-- Module well-formedness: function names are pairwise distinct (LLVM
maintains this by uniquifying on `LLVMAddFunction`). -/
def NodupNames (st : IRGenState) : Prop :=
  (st.functions.map (fun g => g.name)).Nodup

/-- Module well-formedness: function identities are pairwise distinct (each
`LLVMAddFunction` returns a fresh `LLVMValueRef`). -/
def NodupIds (st : IRGenState) : Prop :=
  (st.functions.map (fun g => g.id)).Nodup

/-! ### Frame lemmas: pure-expression generation only appends instructions -/

theorem applyInstrs_nil (st : IRGenState) : applyInstrs st st.nextId [] = st := by
  obtain ⟨fns, nid, ip, nv⟩ := st
  cases ip with
  | none => rfl
  | some p =>
    obtain ⟨fid, bidx⟩ := p
    simp only [applyInstrs, appendAtList, List.foldl_nil]
    congr 1
    have : (fun g : LLVMFunction => if g.id = fid then { g with blocks := g.blocks } else g) =
        fun g => g := by
      funext g
      cases g
      simp
    rw [this]
    simp

theorem applyInstrs_comp (st : IRGenState) (n₁ n₂ : Nat) (is₁ is₂ : List Instruction) :
    applyInstrs (applyInstrs st n₁ is₁) n₂ is₂ = applyInstrs st n₂ (is₁ ++ is₂) := by
  obtain ⟨fns, nid, ip, nv⟩ := st
  cases ip with
  | none => rfl
  | some p =>
    obtain ⟨fid, bidx⟩ := p
    simp only [applyInstrs, List.map_map]
    congr 1
    refine List.map_congr_left (fun g _ => ?_)
    by_cases hg : g.id = fid
    · simp [Function.comp, hg, appendAtList, List.foldl_append]
    · simp [Function.comp, hg]

theorem applyInstrs_map_keyOf (st : IRGenState) (n : Nat) (is : List Instruction) :
    (applyInstrs st n is).functions.map keyOf = st.functions.map keyOf := by
  obtain ⟨fns, nid, ip, nv⟩ := st
  cases ip with
  | none => rfl
  | some p =>
    obtain ⟨fid, bidx⟩ := p
    simp only [applyInstrs, List.map_map]
    refine List.map_congr_left (fun g _ => ?_)
    by_cases hg : g.id = fid <;> simp [Function.comp, hg, keyOf]

theorem emit_snd (st : IRGenState) (mk : Nat → Instruction) :
    (emit st mk).2 = applyInstrs st (st.nextId + 1) [mk st.nextId] := rfl

theorem createFCmp_snd (st : IRGenState) (l r : Value) :
    (createFCmp st l r).2 =
      applyInstrs st (st.nextId + 2)
        [.fcmp l r st.nextId, .uitofp (.instr st.nextId) (st.nextId + 1)] := by
  rw [createFCmp]
  simp only [emit_snd, applyInstrs_comp]
  rfl

mutual

theorem gen_frame (ast : ExprAST) (st : IRGenState) (h : ExprOnly ast = true) :
    ∃ n is, (gen st ast).2 = applyInstrs st n is := by
  cases ast with
  | Number v => exact ⟨st.nextId, [], (applyInstrs_nil st).symm⟩
  | Variable name =>
    refine ⟨st.nextId, [], ?_⟩
    rw [applyInstrs_nil]
    unfold gen
    cases scopeLookup st.namedValues name <;> rfl
  | BinaryOp op lhs rhs =>
    rw [ExprOnly, Bool.and_eq_true] at h
    obtain ⟨hl, hr⟩ := h
    obtain ⟨n₁, is₁, h₁⟩ := gen_frame lhs st hl
    rcases hgl : gen st lhs with ⟨r₁, st₁⟩
    have hst₁ : st₁ = applyInstrs st n₁ is₁ := by rw [← h₁, hgl]
    cases r₁ with
    | error e =>
      refine ⟨n₁, is₁, ?_⟩
      simp only [gen, hgl]
      exact hst₁
    | ok l =>
      obtain ⟨n₂, is₂, h₂⟩ := gen_frame rhs st₁ hr
      rcases hgr : gen st₁ rhs with ⟨r₂, st₂⟩
      have hst₂ : st₂ = applyInstrs st n₂ (is₁ ++ is₂) := by
        rw [← applyInstrs_comp st n₁ n₂ is₁ is₂, ← hst₁, ← h₂, hgr]
      cases r₂ with
      | error e =>
        refine ⟨n₂, is₁ ++ is₂, ?_⟩
        simp only [gen, hgl, hgr]
        exact hst₂
      | ok r =>
        cases op with
        | LessThan =>
          refine ⟨st₂.nextId + 2, (is₁ ++ is₂) ++
            [.fcmp l r st₂.nextId, .uitofp (.instr st₂.nextId) (st₂.nextId + 1)], ?_⟩
          simp only [gen, hgl, hgr, createFCmp_snd]
          rw [hst₂, applyInstrs_comp]
        | Plus =>
          refine ⟨st₂.nextId + 1, (is₁ ++ is₂) ++ [.fadd l r st₂.nextId], ?_⟩
          simp only [gen, hgl, hgr, emit_snd]
          rw [hst₂, applyInstrs_comp]
        | Minus =>
          refine ⟨st₂.nextId + 1, (is₁ ++ is₂) ++ [.fsub l r st₂.nextId], ?_⟩
          simp only [gen, hgl, hgr, emit_snd]
          rw [hst₂, applyInstrs_comp]
        | Times =>
          refine ⟨st₂.nextId + 1, (is₁ ++ is₂) ++ [.fmul l r st₂.nextId], ?_⟩
          simp only [gen, hgl, hgr, emit_snd]
          rw [hst₂, applyInstrs_comp]
  | Call callee args =>
    rw [ExprOnly] at h
    rcases hgf : getFunction st callee with e | f
    · refine ⟨st.nextId, [], ?_⟩
      rw [applyInstrs_nil]
      simp only [gen, hgf]
    · by_cases ha : f.arity ≠ args.length
      · refine ⟨st.nextId, [], ?_⟩
        rw [applyInstrs_nil]
        simp only [gen, hgf]
        rw [if_pos ha]
      · obtain ⟨n₁, is₁, h₁⟩ := genArgs_frame args st h
        rcases hga : genArgs st args with ⟨r₁, st₁⟩
        have hst₁ : st₁ = applyInstrs st n₁ is₁ := by rw [← h₁, hga]
        cases r₁ with
        | error e =>
          refine ⟨n₁, is₁, ?_⟩
          simp only [gen, hgf, hga]
          rw [if_neg ha]
          exact hst₁
        | ok vs =>
          refine ⟨st₁.nextId + 1, is₁ ++ [.call f.id vs st₁.nextId], ?_⟩
          simp only [gen, hgf, hga, emit_snd]
          rw [if_neg ha]
          rw [hst₁, applyInstrs_comp]
  | PrototypeE proto => simp [ExprOnly] at h
  | Function proto body => simp [ExprOnly] at h

theorem genArgs_frame (args : List ExprAST) (st : IRGenState) (h : ExprOnlyList args = true) :
    ∃ n is, (genArgs st args).2 = applyInstrs st n is := by
  cases args with
  | nil => exact ⟨st.nextId, [], (applyInstrs_nil st).symm⟩
  | cons a rest =>
    rw [ExprOnlyList, Bool.and_eq_true] at h
    obtain ⟨ha, hrest⟩ := h
    obtain ⟨n₁, is₁, h₁⟩ := gen_frame a st ha
    rcases hga : gen st a with ⟨r₁, st₁⟩
    have hst₁ : st₁ = applyInstrs st n₁ is₁ := by rw [← h₁, hga]
    cases r₁ with
    | error e =>
      refine ⟨n₁, is₁, ?_⟩
      simp only [genArgs, hga]
      exact hst₁
    | ok v =>
      obtain ⟨n₂, is₂, h₂⟩ := genArgs_frame rest st₁ hrest
      rcases hgr : genArgs st₁ rest with ⟨r₂, st₂⟩
      have hst₂ : st₂ = applyInstrs st n₂ (is₁ ++ is₂) := by
        rw [← applyInstrs_comp st n₁ n₂ is₁ is₂, ← hst₁, ← h₂, hgr]
      cases r₂ with
      | error e =>
        refine ⟨n₂, is₁ ++ is₂, ?_⟩
        simp only [genArgs, hga, hgr]
        exact hst₂
      | ok vs =>
        refine ⟨n₂, is₁ ++ is₂, ?_⟩
        simp only [genArgs, hga, hgr]
        exact hst₂

end

theorem applyInstrs_nextId (st : IRGenState) (n : Nat) (is : List Instruction) :
    (applyInstrs st n is).nextId = n := rfl

theorem applyInstrs_insertPoint (st : IRGenState) (n : Nat) (is : List Instruction) :
    (applyInstrs st n is).insertPoint = st.insertPoint := rfl

theorem applyInstrs_namedValues (st : IRGenState) (n : Nat) (is : List Instruction) :
    (applyInstrs st n is).namedValues = st.namedValues := rfl

/-- Generating a pure expression never adds, removes, renames or re-arits a
function: the function list keeps its shape, only blocks grow. -/
theorem gen_map_keyOf (ast : ExprAST) (st : IRGenState) (h : ExprOnly ast = true) :
    (gen st ast).2.functions.map keyOf = st.functions.map keyOf := by
  obtain ⟨n, is, hfr⟩ := gen_frame ast st h
  rw [hfr, applyInstrs_map_keyOf]

/-- Generating a pure expression leaves the local scope untouched. -/
theorem gen_namedValues (ast : ExprAST) (st : IRGenState) (h : ExprOnly ast = true) :
    (gen st ast).2.namedValues = st.namedValues := by
  obtain ⟨n, is, hfr⟩ := gen_frame ast st h
  rw [hfr, applyInstrs_namedValues]

/-! ### Module-lookup and scope-lookup lemmas -/

theorem findByName_mem {st : IRGenState} {name : String} {f : LLVMFunction}
    (h : findByName st name = some f) : f ∈ st.functions :=
  List.mem_of_find?_eq_some h

theorem findByName_name {st : IRGenState} {name : String} {f : LLVMFunction}
    (h : findByName st name = some f) : f.name = name := by
  have := List.find?_some h
  simpa using this

theorem findByName_eq_none {st : IRGenState} {name : String} :
    findByName st name = none ↔ ∀ g ∈ st.functions, g.name ≠ name := by
  unfold findByName
  rw [List.find?_eq_none]
  simp

/-- With pairwise-distinct identities, dereferencing a member's id yields that
member. -/
theorem findById_of_mem {st : IRGenState} {g : LLVMFunction}
    (hnd : NodupIds st) (hmem : g ∈ st.functions) : findById st g.id = some g := by
  have hs : (st.functions.find? (fun f => f.id = g.id)).isSome :=
    List.find?_isSome.2 ⟨g, hmem, by simp⟩
  obtain ⟨h, hh⟩ := Option.isSome_iff_exists.1 hs
  have hmem' := List.mem_of_find?_eq_some hh
  have hid : h.id = g.id := by simpa using List.find?_some hh
  have heq : h = g := List.inj_on_of_nodup_map hnd hmem' hmem hid
  rw [findById, hh, heq]

theorem scopeLookup_cons (k₀ : String) (v₀ : Value) (rest : List (String × Value)) (k' : String) :
    scopeLookup ((k₀, v₀) :: rest) k' = if k₀ = k' then some v₀ else scopeLookup rest k' := by
  by_cases h : k₀ = k' <;> simp [scopeLookup, List.find?_cons, h]

theorem scopeLookup_insert (sc : List (String × Value)) (k : String) (v : Value) (k' : String) :
    scopeLookup (scopeInsert sc k v) k' = if k' = k then some v else scopeLookup sc k' := by
  induction sc with
  | nil =>
    by_cases h : k' = k
    · simp [scopeInsert, scopeLookup_cons, scopeLookup, h]
    · simp [scopeInsert, scopeLookup_cons, scopeLookup, h, Ne.symm h]
  | cons p rest ih =>
    obtain ⟨k₀, v₀⟩ := p
    by_cases h₀ : k₀ = k
    · subst h₀
      by_cases h : k' = k₀
      · simp [scopeInsert, scopeLookup_cons, h]
      · simp [scopeInsert, scopeLookup_cons, h, Ne.symm h]
    · rw [show scopeInsert ((k₀, v₀) :: rest) k v = (k₀, v₀) :: scopeInsert rest k v by
        simp [scopeInsert, h₀]]
      rw [scopeLookup_cons, scopeLookup_cons, ih]
      by_cases h1 : k₀ = k'
      · have h2 : ¬(k' = k) := fun hx => h₀ (h1.trans hx)
        simp [h1, h2]
      · simp [h1]

theorem scopeLookup_foldl_none (ps : List (String × Value)) :
    ∀ (sc : List (String × Value)) (y : String),
      (scopeLookup (ps.foldl (fun sc p => scopeInsert sc p.1 p.2) sc) y = none ↔
        (y ∉ ps.map Prod.fst ∧ scopeLookup sc y = none)) := by
  induction ps with
  | nil => simp
  | cons p rest ih =>
    intro sc y
    obtain ⟨k, v⟩ := p
    rw [List.foldl_cons, ih, scopeLookup_insert]
    by_cases h : y = k <;> simp [h]

theorem map_range_getD (l : List String) (d : String) :
    (List.range l.length).map (fun i => l.getD i d) = l := by
  induction l with
  | nil => rfl
  | cons a t ih =>
    rw [List.length_cons, List.range_succ_eq_map, List.map_cons, List.map_map]
    have : ((fun i => (a :: t).getD i d) ∘ Nat.succ) = fun i => t.getD i d := rfl
    rw [this]
    simpa using ih

theorem paramsOf_keys (f : LLVMFunction) (hlen : f.arity = f.paramNames.length) :
    (paramsOf f).map Prod.fst = f.paramNames := by
  unfold paramsOf
  rw [hlen, List.map_map]
  exact map_range_getD f.paramNames ""

/-- `named_values` after the FunctionDef prologue binds exactly the names
stored on the function's parameters. -/
theorem bindParams_lookup_none (f : LLVMFunction) (hlen : f.arity = f.paramNames.length)
    (y : String) : scopeLookup (bindParams f) y = none ↔ y ∉ f.paramNames := by
  unfold bindParams
  rw [scopeLookup_foldl_none, paramsOf_keys f hlen]
  simp [scopeLookup]

theorem setParamNames_replicate (l : List String) (d : String) :
    setParamNames (List.replicate l.length d) l = l := by
  induction l with
  | nil => rfl
  | cons a t ih => simpa [List.replicate_succ, setParamNames] using ih

/-! ### Characterizations of the FunctionDef path -/

theorem emit_eq (st : IRGenState) (mk : Nat → Instruction) :
    emit st mk = (.instr st.nextId, applyInstrs st (st.nextId + 1) [mk st.nextId]) := rfl

theorem map_keyOf_blocksMap (fns : List LLVMFunction) (fid : Nat)
    (B : LLVMFunction → List (List Instruction)) :
    ((fns.map fun g => if g.id = fid then { g with blocks := B g } else g).map keyOf) =
      fns.map keyOf := by
  rw [List.map_map]
  refine List.map_congr_left fun g _ => ?_
  by_cases hg : g.id = fid <;> simp [Function.comp, keyOf, hg]

theorem gen_Function_eq (st : IRGenState) (proto : Prototype) (body : ExprAST) :
    gen st (.Function proto body) =
      match gen (genFunctionSetup st proto).2.2 body with
      | (.ok bv, st₄) =>
        (.ok (.func (genFunctionSetup st proto).1.id),
         (emit st₄ (fun res => .ret bv res)).2)
      | (.error e, st₄) => (.error e, deleteFunction st₄ (genFunctionSetup st proto).1.id) := rfl

theorem genFunctionSetup_reuse_parts {st : IRGenState} {proto : Prototype} {f : LLVMFunction}
    (hf : findByName st proto.name = some f) :
    (genFunctionSetup st proto).1 = f ∧
    (genFunctionSetup st proto).2.2 =
      { st with
        functions := st.functions.map fun g =>
          if g.id = f.id then { g with blocks := g.blocks ++ [[]] } else g,
        insertPoint := some (f.id, (findById st f.id).elim 0 fun g => g.blocks.length),
        namedValues := bindParams f } := by
  constructor <;> simp [genFunctionSetup, getFunction, hf, createBasicBlock]

theorem genFunctionSetup_fresh_parts {st : IRGenState} {proto : Prototype}
    (hn : findByName st proto.name = none) :
    (genFunctionSetup st proto).1 =
      ⟨st.nextId, proto.name, proto.args.length,
       setParamNames (List.replicate proto.args.length "") proto.args, []⟩ ∧
    (genFunctionSetup st proto).2.2 =
      (let fnew : LLVMFunction :=
        ⟨st.nextId, proto.name, proto.args.length,
         setParamNames (List.replicate proto.args.length "") proto.args, []⟩
       let st₁ : IRGenState :=
        { st with functions := st.functions ++ [fnew], nextId := st.nextId + 1 }
       { st₁ with
         functions := st₁.functions.map fun g =>
           if g.id = fnew.id then { g with blocks := g.blocks ++ [[]] } else g,
         insertPoint := some (fnew.id, (findById st₁ fnew.id).elim 0 fun g => g.blocks.length),
         namedValues := bindParams fnew }) := by
  constructor <;> simp [genFunctionSetup, getFunction, hn, genProto, createBasicBlock]

theorem gen_Call_notFound (st : IRGenState) (callee : String) (args : List ExprAST)
    (hn : findByName st callee = none) :
    gen st (.Call callee args) = (.error (.FunctionNotFound callee), st) := by
  simp only [gen, getFunction, hn]

theorem keyOf_inj_fields {g₁ g : LLVMFunction} (h : keyOf g₁ = keyOf g) :
    g₁.id = g.id ∧ g₁.name = g.name ∧ g₁.arity = g.arity ∧ g₁.paramNames = g.paramNames := by
  simpa [keyOf] using h

/-- The module shape after a FunctionDef whose body generation ran from the
prologue state: whatever the body did, the function list keeps the shape it
had right after the prologue. -/
theorem gen_ok_map_keyOf_of_Function {st : IRGenState} {proto : Prototype} {body : ExprAST}
    {v : Value} {st' : IRGenState} (hbody : ExprOnly body = true)
    (hgen : gen st (.Function proto body) = (.ok v, st')) :
    v = .func (genFunctionSetup st proto).1.id ∧
    st'.functions.map keyOf = (genFunctionSetup st proto).2.2.functions.map keyOf := by
  rw [gen_Function_eq] at hgen
  rcases hb : gen (genFunctionSetup st proto).2.2 body with ⟨rb, st₄⟩
  rw [hb] at hgen
  cases rb with
  | error e => cases hgen
  | ok bv =>
    have hv := congrArg Prod.fst hgen
    have hst' := congrArg Prod.snd hgen
    simp only at hv hst'
    have hkey4 : st₄.functions.map keyOf = (genFunctionSetup st proto).2.2.functions.map keyOf := by
      have h := gen_map_keyOf body (genFunctionSetup st proto).2.2 hbody
      rw [hb] at h
      exact h
    refine ⟨?_, ?_⟩
    · injection hv with hv'
      exact hv'.symm
    · rw [← hst', emit_eq]
      simp only [applyInstrs_map_keyOf]
      exact hkey4

/-- The module shape after a FAILED FunctionDef: the final state is the
prologue-shaped module with the looked-up function deleted. -/
theorem gen_error_state_of_Function {st : IRGenState} {proto : Prototype} {body : ExprAST}
    {e : LLVMError} {st' : IRGenState} (hbody : ExprOnly body = true)
    (hgen : gen st (.Function proto body) = (.error e, st')) :
    ∃ st₄, st' = deleteFunction st₄ (genFunctionSetup st proto).1.id ∧
      st₄.functions.map keyOf = (genFunctionSetup st proto).2.2.functions.map keyOf := by
  rw [gen_Function_eq] at hgen
  rcases hb : gen (genFunctionSetup st proto).2.2 body with ⟨rb, st₄⟩
  rw [hb] at hgen
  cases rb with
  | ok bv => cases hgen
  | error e' =>
    have hst' := congrArg Prod.snd hgen
    simp only at hst'
    refine ⟨st₄, hst'.symm, ?_⟩
    have h := gen_map_keyOf body (genFunctionSetup st proto).2.2 hbody
    rw [hb] at h
    exact h

theorem genFunctionSetup_reuse_keys {st : IRGenState} {proto : Prototype} {f : LLVMFunction}
    (hf : findByName st proto.name = some f) :
    (genFunctionSetup st proto).2.2.functions.map keyOf = st.functions.map keyOf := by
  rw [(genFunctionSetup_reuse_parts hf).2]
  exact map_keyOf_blocksMap st.functions f.id _

theorem genFunctionSetup_reuse_id {st : IRGenState} {proto : Prototype} {f : LLVMFunction}
    (hf : findByName st proto.name = some f) :
    (genFunctionSetup st proto).1.id = f.id := by
  rw [(genFunctionSetup_reuse_parts hf).1]

theorem genFunctionSetup_fresh_keys {st : IRGenState} {proto : Prototype}
    (hn : findByName st proto.name = none) :
    (genFunctionSetup st proto).2.2.functions.map keyOf =
      st.functions.map keyOf ++ [(st.nextId, proto.name, proto.args.length, proto.args)] := by
  rw [(genFunctionSetup_fresh_parts hn).2]
  simp only [map_keyOf_blocksMap, List.map_append]
  simp [keyOf, setParamNames_replicate]

theorem genFunctionSetup_fresh_id {st : IRGenState} {proto : Prototype}
    (hn : findByName st proto.name = none) :
    (genFunctionSetup st proto).1.id = st.nextId := by
  rw [(genFunctionSetup_fresh_parts hn).1]

theorem appendAt_concat (bs : List (List Instruction)) (b : List Instruction)
    (i : Instruction) : appendAt (bs ++ [b]) bs.length i = bs ++ [b ++ [i]] := by
  induction bs with
  | nil => rfl
  | cons hd tl ih => simpa [appendAt] using ih

theorem appendAtList_concat (bs : List (List Instruction)) (b : List Instruction)
    (is : List Instruction) :
    appendAtList (bs ++ [b]) bs.length is = bs ++ [b ++ is] := by
  induction is generalizing b with
  | nil => simp [appendAtList]
  | cons i rest ih =>
    rw [appendAtList, List.foldl_cons, appendAt_concat]
    have h := ih (b ++ [i])
    rw [appendAtList] at h
    rw [h, List.append_assoc]
    rfl

theorem genFunctionSetup_reuse_insertPoint {st : IRGenState} {proto : Prototype}
    {f : LLVMFunction} (hf : findByName st proto.name = some f)
    (hbid : findById st f.id = some f) :
    (genFunctionSetup st proto).2.2.insertPoint = some (f.id, f.blocks.length) := by
  rw [(genFunctionSetup_reuse_parts hf).2]
  simp [hbid]

theorem genFunctionSetup_reuse_functions {st : IRGenState} {proto : Prototype}
    {f : LLVMFunction} (hf : findByName st proto.name = some f) :
    (genFunctionSetup st proto).2.2.functions =
      st.functions.map fun g =>
        if g.id = f.id then { g with blocks := g.blocks ++ [[]] } else g := by
  rw [(genFunctionSetup_reuse_parts hf).2]

/-! ### Claim theorems -/

/-- C3: the expression parser implements precedence climbing with the static
precedence table LessThan=10, Plus=20, Minus=20, Times=40 and
left-associativity: the token sequence of "1+2*3;" parses to
BinaryOp(Plus, Number 1, BinaryOp(Times, Number 2, Number 3)), and the token
sequence of "1*2+3;" parses to
BinaryOp(Plus, BinaryOp(Times, Number 1, Number 2), Number 3).  (The last two
conjuncts tie the two token sequences to their source strings.) -/
theorem c3_precedence_climbing :
    getPrec .LessThan = 10 ∧ getPrec .Plus = 20 ∧ getPrec .Minus = 20 ∧ getPrec .Times = 40 ∧
    parse 10 [.Number 1, .Operator .Plus, .Number 2, .Operator .Times, .Number 3, .SemiColon] =
      .ok (.BinaryOp .Plus (.Number 1) (.BinaryOp .Times (.Number 2) (.Number 3)), none, []) ∧
    parse 10 [.Number 1, .Operator .Times, .Number 2, .Operator .Plus, .Number 3, .SemiColon] =
      .ok (.BinaryOp .Plus (.BinaryOp .Times (.Number 1) (.Number 2)) (.Number 3), none, []) ∧
    lexAll "1+2*3;" = some (.ok [.Number 1, .Operator .Plus, .Number 2, .Operator .Times,
      .Number 3, .SemiColon]) ∧
    lexAll "1*2+3;" = some (.ok [.Number 1, .Operator .Times, .Number 2, .Operator .Plus,
      .Number 3, .SemiColon]) :=
  ⟨rfl, rfl, rfl, rfl, rfl, rfl, by decide, by decide⟩

/-- C8: lexing "3.141592 def fib x" yields exactly
[Number 3.141592, Def, Identifier "fib", Identifier "x"] and terminates
(the iteration, drained to completion within input-bounded fuel, never
surfaces an EOF token as an element). -/
theorem c8_lex_example :
    lexAll "3.141592 def fib x" =
      some (.ok [.Number 3.141592, .Def, .Identifier "fib", .Identifier "x"]) ∧
    Token.EOF ∉ [Token.Number 3.141592, Token.Def, Token.Identifier "fib",
      Token.Identifier "x"] := by
  constructor
  · rw [show (3.141592 : ℚ) = mkRat 3141592 1000000 by
      norm_num [OfScientific.ofScientific, Rat.ofScientific]]
    decide
  · decide

/-- C7: when a top-level statement parses successfully but the next token is
not a semicolon (either another token, or nothing), `Parser::parse` still
returns the built AST as a success carrying only a recoverable warning, and
in the trailing-token case the whole unconsumed remainder is drained before
returning. -/
theorem c7_semicolon_warning (fuel : Nat) (ts : List Token) (ast : ExprAST)
    (rest : List Token) (h : parseStmt fuel ts = .ok (ast, rest)) :
    (rest.head? = none → parse fuel ts = .ok (ast, some .expectedSemicolon, [])) ∧
    (∀ t, rest.head? = some t → t ≠ .SemiColon →
      parse fuel ts = .ok (ast, some (.invalidSyntax rest), [])) := by
  constructor
  · intro hn
    simp only [parse, h, hn]
  · intro t ht hne
    simp only [parse, h, ht]

/-- Witness for C7 at concrete inputs: a statement with no trailing token and
one with a non-semicolon trailing token. -/
theorem c7_witness :
    parseStmt 10 [Token.Number 1] = .ok (.Number 1, []) ∧
    parse 10 [Token.Number 1] = .ok (.Number 1, some .expectedSemicolon, []) ∧
    parse 10 [Token.Number 1, Token.Number 2] =
      .ok (.Number 1, some (.invalidSyntax [Token.Number 2]), []) :=
  ⟨rfl,
   (c7_semicolon_warning 10 [Token.Number 1] (.Number 1) [] rfl).1 rfl,
   (c7_semicolon_warning 10 [Token.Number 1, Token.Number 2] (.Number 1)
     [Token.Number 2] rfl).2 (Token.Number 2) rfl (by decide)⟩

/-- C5: code-generating a Call fails with FunctionNotFound(callee) when no
function of that name is present in the module, and fails with
InvalidArgumentsSize(callee, args.length) when the found function's declared
arity differs from the argument count — in both cases the state is returned
unchanged, so no argument is generated and no partial call is emitted;
otherwise the arguments are generated left-to-right (`genArgs`) and a single
call instruction is emitted at the insertion point. -/
theorem c5_call_errors (st : IRGenState) (callee : String) (args : List ExprAST) :
    (findByName st callee = none →
      gen st (.Call callee args) = (.error (.FunctionNotFound callee), st)) ∧
    (∀ f, findByName st callee = some f → f.arity ≠ args.length →
      gen st (.Call callee args) = (.error (.InvalidArgumentsSize callee args.length), st)) ∧
    (∀ f vs st₁, findByName st callee = some f → f.arity = args.length →
      genArgs st args = (.ok vs, st₁) →
      gen st (.Call callee args) =
        (.ok (.instr st₁.nextId), applyInstrs st₁ (st₁.nextId + 1) [.call f.id vs st₁.nextId])) := by
  refine ⟨fun hn => gen_Call_notFound st callee args hn, ?_, ?_⟩
  · intro f hf ha
    simp only [gen, getFunction, hf]
    rw [if_pos ha]
  · intro f vs st₁ hf ha hargs
    simp only [gen, getFunction, hf, hargs, emit_eq]
    rw [if_neg (fun hx => hx ha)]

/-- Witness for C5: a module holding one 2-parameter function "g": calling an
undeclared "h" fails with FunctionNotFound, and calling "g" with zero
arguments fails with InvalidArgumentsSize("g", 0), both leaving the state
unchanged. -/
theorem c5_witness :
    findByName ⟨[⟨0, "g", 2, ["a", "b"], []⟩], 1, none, []⟩ "h" = none ∧
    findByName ⟨[⟨0, "g", 2, ["a", "b"], []⟩], 1, none, []⟩ "g" =
      some ⟨0, "g", 2, ["a", "b"], []⟩ ∧
    (2 : Nat) ≠ 0 ∧
    gen ⟨[⟨0, "g", 2, ["a", "b"], []⟩], 1, none, []⟩ (.Call "h" []) =
      (.error (.FunctionNotFound "h"), ⟨[⟨0, "g", 2, ["a", "b"], []⟩], 1, none, []⟩) ∧
    gen ⟨[⟨0, "g", 2, ["a", "b"], []⟩], 1, none, []⟩ (.Call "g" []) =
      (.error (.InvalidArgumentsSize "g" 0), ⟨[⟨0, "g", 2, ["a", "b"], []⟩], 1, none, []⟩) :=
  ⟨rfl, rfl, by decide,
   (c5_call_errors ⟨[⟨0, "g", 2, ["a", "b"], []⟩], 1, none, []⟩ "h" []).1 rfl,
   (c5_call_errors ⟨[⟨0, "g", 2, ["a", "b"], []⟩], 1, none, []⟩ "g" []).2.1
     ⟨0, "g", 2, ["a", "b"], []⟩ rfl (by decide)⟩

/-- C6 counterexample: the claim "generating a VariableRef outside any
function-body generation fails with VariableNotFound for every name" is false
on the code: after the successful definition `def f(x) x;` from a fresh
session, the parameter binding "x" is still in `named_values`, so a top-level
VariableRef "x" succeeds (yielding the stale parameter value) instead of
failing. -/
theorem c6_counterexample :
    (gen irGeneratorNew (.Function ⟨"f", ["x"]⟩ (.Variable "x"))).1 = .ok (.func 0) ∧
    (gen (gen irGeneratorNew (.Function ⟨"f", ["x"]⟩ (.Variable "x"))).2 (.Variable "x")).1 =
      .ok (.param 0 0) ∧
    (gen (gen irGeneratorNew (.Function ⟨"f", ["x"]⟩ (.Variable "x"))).2 (.Variable "x")).1 ≠
      .error (.VariableNotFound "x") := by
  refine ⟨rfl, rfl, ?_⟩
  decide

/-- C4: a FunctionDef whose name already has a backend function (prior extern
or prior definition) reuses that function — the result is the existing
function's value and the module's function list keeps its exact shape (no
error, no duplicate declaration); a fresh function (named by the prototype,
with its arity and parameter names, at the next fresh id) is declared only
when no function of that name exists. -/
theorem c4_reuse_or_declare (st : IRGenState) (proto : Prototype) (body : ExprAST)
    (hbody : ExprOnly body = true) :
    (∀ f v st', findByName st proto.name = some f →
      gen st (.Function proto body) = (.ok v, st') →
      v = .func f.id ∧ st'.functions.map keyOf = st.functions.map keyOf) ∧
    (∀ v st', findByName st proto.name = none →
      gen st (.Function proto body) = (.ok v, st') →
      v = .func st.nextId ∧
      st'.functions.map keyOf =
        st.functions.map keyOf ++ [(st.nextId, proto.name, proto.args.length, proto.args)]) := by
  constructor
  · rintro f v st' hf hgen
    obtain ⟨h1, h2⟩ := genFunctionSetup_reuse_parts hf
    obtain ⟨hv, hkeys⟩ := gen_ok_map_keyOf_of_Function hbody hgen
    refine ⟨by rw [hv, h1], ?_⟩
    rw [hkeys, h2]
    exact map_keyOf_blocksMap st.functions f.id _
  · rintro v st' hn hgen
    obtain ⟨h1, h2⟩ := genFunctionSetup_fresh_parts hn
    obtain ⟨hv, hkeys⟩ := gen_ok_map_keyOf_of_Function hbody hgen
    refine ⟨by rw [hv, h1], ?_⟩
    rw [hkeys, h2]
    simp only [map_keyOf_blocksMap, List.map_append]
    simp [keyOf, setParamNames_replicate]

/-- C2: when a FunctionDef's body generation fails, the backend function that
was created or reused for the definition is deleted before the error
propagates: afterwards no function of that name exists in the module, and a
subsequent Call to that name fails with FunctionNotFound. -/
theorem c2_failed_def_deleted (st : IRGenState) (proto : Prototype) (body : ExprAST)
    (e : LLVMError) (st' : IRGenState) (hbody : ExprOnly body = true) (hnn : NodupNames st)
    (hgen : gen st (.Function proto body) = (.error e, st')) :
    findByName st' proto.name = none ∧
    ∀ args, gen st' (.Call proto.name args) = (.error (.FunctionNotFound proto.name), st') := by
  obtain ⟨st₄, hst', hkeys⟩ := gen_error_state_of_Function hbody hgen
  have hmain : findByName st' proto.name = none := by
    rw [hst', findByName_eq_none]
    intro g hg hgname
    have hg' : g ∈ st₄.functions ∧ ¬(g.id = (genFunctionSetup st proto).1.id) := by
      simpa [deleteFunction, List.mem_filter] using hg
    obtain ⟨hg4, hgid⟩ := hg'
    have hkg : keyOf g ∈ st₄.functions.map keyOf := List.mem_map_of_mem keyOf hg4
    rw [hkeys] at hkg
    rcases hlk : findByName st proto.name with _ | f
    · rw [genFunctionSetup_fresh_keys hlk] at hkg
      rcases List.mem_append.1 hkg with hin | hnew
      · obtain ⟨g₁, hg₁, hkey⟩ := List.mem_map.1 hin
        obtain ⟨_, hname, _, _⟩ := keyOf_inj_fields hkey
        exact (findByName_eq_none.1 hlk g₁ hg₁) (hname.trans hgname)
      · have : keyOf g = (st.nextId, proto.name, proto.args.length, proto.args) := by
          simpa using hnew
        have hid : g.id = st.nextId := by
          simpa [keyOf] using congrArg Prod.fst this
        exact hgid (hid.trans (genFunctionSetup_fresh_id hlk).symm)
    · rw [genFunctionSetup_reuse_keys hlk] at hkg
      obtain ⟨g₁, hg₁, hkey⟩ := List.mem_map.1 hkg
      obtain ⟨hid, hname, _, _⟩ := keyOf_inj_fields hkey
      have hfmem := findByName_mem hlk
      have hfname := findByName_name hlk
      have : g₁ = f :=
        List.inj_on_of_nodup_map hnn hg₁ hfmem (by rw [hname, hgname, hfname])
      exact hgid ((hid.symm.trans (congrArg LLVMFunction.id this)).trans
        (genFunctionSetup_reuse_id hlk).symm)
  exact ⟨hmain, fun args => gen_Call_notFound st' proto.name args hmain⟩

/-- C10: a FunctionDef that reuses an existing backend function which already
has generated blocks appends one additional fresh entry block to that same
function (same identity) and emits the new body there: afterwards the
function's block list is exactly its old blocks followed by one new block —
nothing is removed or replaced. -/
theorem c10_reuse_appends_block (st : IRGenState) (proto : Prototype) (body : ExprAST)
    (f : LLVMFunction) (v : Value) (st' : IRGenState)
    (hf : findByName st proto.name = some f) (hne : f.blocks ≠ [])
    (hids : NodupIds st) (hbody : ExprOnly body = true)
    (hgen : gen st (.Function proto body) = (.ok v, st')) :
    ∃ nb, findById st' f.id = some { f with blocks := f.blocks ++ [nb] } := by
  have hbid : findById st f.id = some f := findById_of_mem hids (findByName_mem hf)
  have hip₃ : (genFunctionSetup st proto).2.2.insertPoint = some (f.id, f.blocks.length) :=
    genFunctionSetup_reuse_insertPoint hf hbid
  have hfuncs₃ := genFunctionSetup_reuse_functions hf
  rw [gen_Function_eq] at hgen
  rcases hb : gen (genFunctionSetup st proto).2.2 body with ⟨rb, st₄⟩
  rw [hb] at hgen
  cases rb with
  | error e => cases hgen
  | ok bv =>
    have hst' := congrArg Prod.snd hgen
    simp only at hst'
    obtain ⟨n, is, hfr⟩ := gen_frame body (genFunctionSetup st proto).2.2 hbody
    rw [hb] at hfr
    simp only at hfr
    have hfin : st' = applyInstrs (genFunctionSetup st proto).2.2 (st₄.nextId + 1)
        (is ++ [.ret bv st₄.nextId]) := by
      rw [← hst', emit_eq]
      simp only
      rw [hfr, applyInstrs_comp]
    have hfuncs' : st'.functions =
        ((genFunctionSetup st proto).2.2.functions.map fun g =>
          if g.id = f.id then
            { g with blocks := appendAtList g.blocks f.blocks.length (is ++ [.ret bv st₄.nextId]) }
          else g) := by
      rw [hfin]
      unfold applyInstrs
      rw [hip₃]
    refine ⟨is ++ [.ret bv st₄.nextId], ?_⟩
    rw [findById, hfuncs', hfuncs₃, List.map_map, List.find?_map]
    have hpred : ((fun g : LLVMFunction => decide (g.id = f.id)) ∘
        ((fun g => if g.id = f.id then
            { g with blocks := appendAtList g.blocks f.blocks.length (is ++ [.ret bv st₄.nextId]) }
          else g) ∘
         (fun g => if g.id = f.id then { g with blocks := g.blocks ++ [[]] } else g))) =
        fun g : LLVMFunction => decide (g.id = f.id) := by
      funext g
      by_cases hg : g.id = f.id <;> simp [Function.comp, hg]
    rw [hpred]
    have : st.functions.find? (fun g => decide (g.id = f.id)) = some f := hbid
    rw [this]
    simp [Function.comp, appendAtList_concat]

/-- C9: when a FunctionDef reuses an existing backend function, the local
scope for the body is populated from the parameter names stored on that
function (set when it was first declared) — the new prototype's parameter
list plays no role: the prologue's scope is `bindParams f`, a body that
references a name outside the stored parameter names fails with
VariableNotFound even if the new prototype binds it, and a body referencing a
stored name succeeds. -/
theorem c9_reuse_param_names (st : IRGenState) (proto : Prototype) (f : LLVMFunction)
    (y : String) (hf : findByName st proto.name = some f)
    (hlen : f.arity = f.paramNames.length) :
    (genFunctionSetup st proto).2.2.namedValues = bindParams f ∧
    (y ∉ f.paramNames →
      (gen st (.Function proto (.Variable y))).1 = .error (.VariableNotFound y)) ∧
    (y ∈ f.paramNames →
      (gen st (.Function proto (.Variable y))).1 = .ok (.func f.id)) := by
  have hnv : (genFunctionSetup st proto).2.2.namedValues = bindParams f := by
    rw [(genFunctionSetup_reuse_parts hf).2]
  refine ⟨hnv, ?_, ?_⟩
  · intro hy
    have hlook : scopeLookup (genFunctionSetup st proto).2.2.namedValues y = none := by
      rw [hnv]
      exact (bindParams_lookup_none f hlen y).2 hy
    have hbgen : gen (genFunctionSetup st proto).2.2 (.Variable y) =
        (.error (.VariableNotFound y), (genFunctionSetup st proto).2.2) := by
      simp only [gen, hlook]
    rw [gen_Function_eq, hbgen]
  · intro hy
    have hlook : scopeLookup (genFunctionSetup st proto).2.2.namedValues y ≠ none := by
      rw [hnv]
      intro hcon
      exact ((bindParams_lookup_none f hlen y).1 hcon) hy
    obtain ⟨w, hw⟩ := Option.ne_none_iff_exists'.1 hlook
    have hbgen : gen (genFunctionSetup st proto).2.2 (.Variable y) =
        (.ok w, (genFunctionSetup st proto).2.2) := by
      simp only [gen, hw]
    rw [gen_Function_eq, hbgen]
    simp only
    rw [(genFunctionSetup_reuse_parts hf).1]

/-- C6 (amended): the local scope is cleared and repopulated from the looked-up
function's parameters at the start of every FunctionDef generation — the
incoming bindings are irrelevant to the result — and in a fresh session a
VariableRef outside any function-body generation fails with VariableNotFound
for every name; however the bindings are NOT dropped when body generation
finishes: after a successful FunctionDef they persist (until the next
FunctionDef clears them), so later top-level VariableRefs can still resolve
the last function's parameter names. -/
theorem c6_scope_amended :
    (∀ (st : IRGenState) (nv : List (String × Value)) (proto : Prototype) (body : ExprAST),
      gen { st with namedValues := nv } (.Function proto body) =
        gen st (.Function proto body)) ∧
    (∀ name, gen irGeneratorNew (.Variable name) =
      (.error (.VariableNotFound name), irGeneratorNew)) ∧
    (∀ (st : IRGenState) (proto : Prototype) (body : ExprAST) (v : Value) (st' : IRGenState),
      ExprOnly body = true → gen st (.Function proto body) = (.ok v, st') →
      st'.namedValues = (genFunctionSetup st proto).2.2.namedValues) := by
  refine ⟨?_, ?_, ?_⟩
  · intro st nv proto body
    have hsetup : genFunctionSetup { st with namedValues := nv } proto =
        genFunctionSetup st proto := by
      obtain ⟨fns, nid, ip, nv₀⟩ := st
      unfold genFunctionSetup getFunction findByName
      cases fns.find? (fun f => f.name = proto.name) <;> rfl
    rw [gen_Function_eq, gen_Function_eq, hsetup]
  · intro name
    rfl
  · intro st proto body v st' hbody hgen
    rw [gen_Function_eq] at hgen
    rcases hb : gen (genFunctionSetup st proto).2.2 body with ⟨rb, st₄⟩
    rw [hb] at hgen
    cases rb with
    | error e => cases hgen
    | ok bv =>
      have hst' := congrArg Prod.snd hgen
      simp only at hst'
      have hnv₄ : st₄.namedValues = (genFunctionSetup st proto).2.2.namedValues := by
        have h := gen_namedValues body (genFunctionSetup st proto).2.2 hbody
        rw [hb] at h
        exact h
      rw [← hst', emit_eq]
      simp only
      rw [applyInstrs_namedValues]
      exact hnv₄

/-- C1: for every structural punctuation / operator character
('(', ')', ',', ';', '<', '+', '-', '*') the lexer emits the corresponding
fixed single-character token rather than failing, and an UnknownInitial
error arises only for a character outside the alphabetic/digit/dot/hash/
whitespace set plus this punctuation set, carrying exactly the offending
character (the state advances past it either way). -/
theorem c1_punct_and_unknown (fuel : Nat) (c : Char) (rest : List Char)
    (hw : isAsciiWhitespace c = false) (ha : isAsciiAlphabetic c = false)
    (hd : isAsciiDigit c = false) (hdot : c ≠ '.') (hh : c ≠ '#') :
    (punctToken c = none ↔ c ∉ ['(', ')', ',', ';', '<', '+', '-', '*']) ∧
    (∀ t, punctToken c = some t →
      getToken fuel ⟨some c, rest⟩ = (.ok t, ⟨rest.head?, rest.tail⟩)) ∧
    (punctToken c = none →
      getToken fuel ⟨some c, rest⟩ = (.error (.UnknownInitial c), ⟨rest.head?, rest.tail⟩)) := by
  refine ⟨?_, ?_, ?_⟩
  · unfold punctToken
    split_ifs with h1 h2 h3 h4 h5 h6 h7 h8 <;> simp_all
  · intro t hp
    unfold getToken
    simp [hw, ha, hd, hdot, hh, hp]
  · intro hp
    unfold getToken
    simp [hw, ha, hd, hdot, hh, hp]

/-- Witness for C1: '<' lexes to the LessThan operator token, '@' fails with
UnknownInitial '@'. -/
theorem c1_witness :
    punctToken '<' = some (.Operator .LessThan) ∧
    punctToken '@' = none ∧
    getToken 1 ⟨some '<', []⟩ = (.ok (.Operator .LessThan), ⟨none, []⟩) ∧
    getToken 1 ⟨some '@', ['a']⟩ = (.error (.UnknownInitial '@'), ⟨some 'a', []⟩) :=
  ⟨rfl, rfl,
   (c1_punct_and_unknown 1 '<' [] rfl rfl rfl (by decide) (by decide)).2.1
     (.Operator .LessThan) rfl,
   (c1_punct_and_unknown 1 '@' ['a'] rfl rfl rfl (by decide) (by decide)).2.2 rfl⟩

/-- Witness for C2 on a concrete session: from a fresh generator,
`def f(x) zz;` fails with VariableNotFound "zz"; afterwards no function named
"f" exists and calling "f" fails with FunctionNotFound. -/
theorem c2_witness :
    ExprOnly (.Variable "zz") = true ∧
    NodupNames irGeneratorNew ∧
    gen irGeneratorNew (.Function ⟨"f", ["x"]⟩ (.Variable "zz")) =
      (.error (.VariableNotFound "zz"), ⟨[], 1, some (0, 0), [("x", .param 0 0)]⟩) ∧
    (findByName ⟨[], 1, some (0, 0), [("x", .param 0 0)]⟩ "f" = none ∧
      ∀ args, gen ⟨[], 1, some (0, 0), [("x", .param 0 0)]⟩ (.Call "f" args) =
        (.error (.FunctionNotFound "f"), ⟨[], 1, some (0, 0), [("x", .param 0 0)]⟩)) :=
  ⟨rfl, by simp [NodupNames, irGeneratorNew], rfl,
   c2_failed_def_deleted irGeneratorNew ⟨"f", ["x"]⟩ (.Variable "zz")
     (.VariableNotFound "zz") ⟨[], 1, some (0, 0), [("x", .param 0 0)]⟩ rfl
     (by simp [NodupNames, irGeneratorNew]) rfl⟩

/-- Witness for C9 on a concrete session: after `def f(x) x;`, the
redefinition `def f(y) y;` fails with VariableNotFound "y" (the reused
function's stored parameter name is "x"), while `def f(x) x;` again succeeds. -/
theorem c9_witness :
    findByName ⟨[⟨0, "f", 1, ["x"], [[.ret (.param 0 0) 1]]⟩], 2, some (0, 0),
      [("x", .param 0 0)]⟩ "f" = some ⟨0, "f", 1, ["x"], [[.ret (.param 0 0) 1]]⟩ ∧
    ("y" : String) ∉ ["x"] ∧
    (gen ⟨[⟨0, "f", 1, ["x"], [[.ret (.param 0 0) 1]]⟩], 2, some (0, 0),
      [("x", .param 0 0)]⟩ (.Function ⟨"f", ["y"]⟩ (.Variable "y"))).1 =
      .error (.VariableNotFound "y") ∧
    (gen ⟨[⟨0, "f", 1, ["x"], [[.ret (.param 0 0) 1]]⟩], 2, some (0, 0),
      [("x", .param 0 0)]⟩ (.Function ⟨"f", ["x"]⟩ (.Variable "x"))).1 = .ok (.func 0) :=
  ⟨rfl, by decide,
   (c9_reuse_param_names ⟨[⟨0, "f", 1, ["x"], [[.ret (.param 0 0) 1]]⟩], 2, some (0, 0),
      [("x", .param 0 0)]⟩ ⟨"f", ["y"]⟩ ⟨0, "f", 1, ["x"], [[.ret (.param 0 0) 1]]⟩
      "y" rfl rfl).2.1 (by decide),
   (c9_reuse_param_names ⟨[⟨0, "f", 1, ["x"], [[.ret (.param 0 0) 1]]⟩], 2, some (0, 0),
      [("x", .param 0 0)]⟩ ⟨"f", ["x"]⟩ ⟨0, "f", 1, ["x"], [[.ret (.param 0 0) 1]]⟩
      "x" rfl rfl).2.2 (by decide)⟩

/-- Witness for C10 on a concrete session: redefining `f` against the state
left by `def f(x) x;` appends exactly one new entry block to function 0,
leaving its first block in place. -/
theorem c10_witness :
    findByName ⟨[⟨0, "f", 1, ["x"], [[.ret (.param 0 0) 1]]⟩], 2, some (0, 0),
      [("x", .param 0 0)]⟩ "f" = some ⟨0, "f", 1, ["x"], [[.ret (.param 0 0) 1]]⟩ ∧
    NodupIds ⟨[⟨0, "f", 1, ["x"], [[.ret (.param 0 0) 1]]⟩], 2, some (0, 0),
      [("x", .param 0 0)]⟩ ∧
    gen ⟨[⟨0, "f", 1, ["x"], [[.ret (.param 0 0) 1]]⟩], 2, some (0, 0),
      [("x", .param 0 0)]⟩ (.Function ⟨"f", ["x"]⟩ (.Variable "x")) =
      (.ok (.func 0), ⟨[⟨0, "f", 1, ["x"],
        [[.ret (.param 0 0) 1], [.ret (.param 0 0) 2]]⟩], 3, some (0, 1),
        [("x", .param 0 0)]⟩) ∧
    (∃ nb, findById ⟨[⟨0, "f", 1, ["x"],
        [[.ret (.param 0 0) 1], [.ret (.param 0 0) 2]]⟩], 3, some (0, 1),
        [("x", .param 0 0)]⟩ 0 =
      some { (⟨0, "f", 1, ["x"], [[.ret (.param 0 0) 1]]⟩ : LLVMFunction) with
        blocks := [[.ret (.param 0 0) 1]] ++ [nb] }) :=
  ⟨rfl, by simp [NodupIds], rfl,
   c10_reuse_appends_block ⟨[⟨0, "f", 1, ["x"], [[.ret (.param 0 0) 1]]⟩], 2, some (0, 0),
      [("x", .param 0 0)]⟩ ⟨"f", ["x"]⟩ (.Variable "x")
     ⟨0, "f", 1, ["x"], [[.ret (.param 0 0) 1]]⟩ (.func 0)
     ⟨[⟨0, "f", 1, ["x"], [[.ret (.param 0 0) 1], [.ret (.param 0 0) 2]]⟩], 3, some (0, 1),
      [("x", .param 0 0)]⟩ rfl (by decide) (by simp [NodupIds]) rfl rfl⟩

/-- Witness for C4 on a concrete session: redefining `f` against the state
left by `def f(x) x;` reuses function 0 (result value `func 0`, module shape
unchanged), and defining `g` in a fresh module declares it fresh at id 0. -/
theorem c4_witness :
    ExprOnly (.Variable "x") = true ∧
    findByName ⟨[⟨0, "f", 1, ["x"], [[.ret (.param 0 0) 1]]⟩], 2, some (0, 0),
      [("x", .param 0 0)]⟩ "f" = some ⟨0, "f", 1, ["x"], [[.ret (.param 0 0) 1]]⟩ ∧
    ((.func 0 : Value) = .func 0 ∧
      (⟨[⟨0, "f", 1, ["x"], [[.ret (.param 0 0) 1], [.ret (.param 0 0) 2]]⟩], 3, some (0, 1),
        [("x", .param 0 0)]⟩ : IRGenState).functions.map keyOf =
      (⟨[⟨0, "f", 1, ["x"], [[.ret (.param 0 0) 1]]⟩], 2, some (0, 0),
        [("x", .param 0 0)]⟩ : IRGenState).functions.map keyOf) ∧
    ((.func 0 : Value) = .func 0 ∧
      (⟨[⟨0, "g", 1, ["a"], [[.ret (.param 0 0) 1]]⟩], 2, some (0, 0),
        [("a", .param 0 0)]⟩ : IRGenState).functions.map keyOf =
      ([] : List LLVMFunction).map keyOf ++ [(0, "g", 1, ["a"])]) :=
  ⟨rfl, rfl,
   (c4_reuse_or_declare ⟨[⟨0, "f", 1, ["x"], [[.ret (.param 0 0) 1]]⟩], 2, some (0, 0),
      [("x", .param 0 0)]⟩ ⟨"f", ["x"]⟩ (.Variable "x") rfl).1
     ⟨0, "f", 1, ["x"], [[.ret (.param 0 0) 1]]⟩ (.func 0)
     ⟨[⟨0, "f", 1, ["x"], [[.ret (.param 0 0) 1], [.ret (.param 0 0) 2]]⟩], 3, some (0, 1),
      [("x", .param 0 0)]⟩ rfl rfl,
   (c4_reuse_or_declare irGeneratorNew ⟨"g", ["a"]⟩ (.Variable "a") rfl).2
     (.func 0)
     ⟨[⟨0, "g", 1, ["a"], [[.ret (.param 0 0) 1]]⟩], 2, some (0, 0), [("a", .param 0 0)]⟩
     rfl rfl⟩

/-- Witness for the amended C6 on a concrete session: the bindings installed
by `def f(x) x;` from a fresh generator persist in the state it returns. -/
theorem c6_witness :
    ExprOnly (.Variable "x") = true ∧
    gen irGeneratorNew (.Function ⟨"f", ["x"]⟩ (.Variable "x")) =
      (.ok (.func 0), ⟨[⟨0, "f", 1, ["x"], [[.ret (.param 0 0) 1]]⟩], 2, some (0, 0),
        [("x", .param 0 0)]⟩) ∧
    (⟨[⟨0, "f", 1, ["x"], [[.ret (.param 0 0) 1]]⟩], 2, some (0, 0),
      [("x", .param 0 0)]⟩ : IRGenState).namedValues =
      (genFunctionSetup irGeneratorNew ⟨"f", ["x"]⟩).2.2.namedValues :=
  ⟨rfl, rfl,
   c6_scope_amended.2.2 irGeneratorNew ⟨"f", ["x"]⟩ (.Variable "x") (.func 0)
     ⟨[⟨0, "f", 1, ["x"], [[.ret (.param 0 0) 1]]⟩], 2, some (0, 0), [("x", .param 0 0)]⟩
     rfl rfl⟩

end Kaleidoscope
